import Mathlib

/-!
Shallow embedding of the sequence-generation engine of `dataset.py`
(`Dataset.__init__`, `Dataset.gen_seq`, `Dataset.gen_batch`, `iterate_batches`).

Modelling conventions:
* numpy's seeded `Generator` is modelled by an explicit deterministic state
  (`RNG`) advanced by a linear congruential step; every sampling call consumes
  exactly one draw, and the state is threaded explicitly in program order, as
  in the source (one generator per stream, no ambient randomness).
* probability vectors (`self.marginal`, `self.cond[i]`) are kept as their raw
  nonnegative integer counts; the float normalisations in the source
  (`marginal /= marginal.sum()`, `cond[i] /= cond[i].sum()`,
  `cond[idx][pool] / cond[idx][pool].sum()`) are scalar rescalings that do not
  change which element a weighted draw can select, so weighted draws are
  modelled by cumulative-count selection over the unnormalised counts.
  When every weight in the support is zero (a zero-count row, for which the
  source's normalisation is undefined / numpy rejects the draw), the model
  conservatively falls back to a positional pick from the same pool.
* the string side of the vocabulary (`itos` / `stoi`) is composed away:
  `unigrams` and `bigrams` are indexed directly by token id.
* Python list slicing `a[start:stop]` (with negative-index wrap-around and
  clamping) is `pySlice`; `np.argsort` is modelled as a sort of the index
  range by count (ascending, ties by index); `int(0.75 * n)` is `3 * n / 4`
  (exact, because 0.75 is a dyadic rational and the product is below 2^53);
  `np.ndarray.reshape(b, c)` on a flat list is `reshape`, defined when the
  flat length is `b * c`.
-/

/-- One step of a linear congruential generator: the concrete deterministic
state transition standing in for numpy's PCG64 state advance. -/
def lcgStep (s : Nat) : Nat := (6364136223846793005 * s + 1442695040888963407) % 2 ^ 64

/-- Explicit random-generator state (models a `np.random.Generator`). -/
structure RNG where
  state : Nat
deriving DecidableEq, Repr, Inhabited

/-- Advance the generator once and return the raw draw. -/
def RNG.next (r : RNG) : Nat × RNG :=
  let s := lcgStep r.state
  (s, ⟨s⟩)

/-- Models `np.random.default_rng(seed)`: a fresh generator fully determined
by the seed. -/
def mkRng (seed : Nat) : RNG := ⟨seed⟩

/-- Models `rng.choice(pool)` (uniform over a nonempty pool): consume one draw
and pick the indexed element. -/
def choiceUniform (r : RNG) (pool : List Nat) : Nat × RNG :=
  let (n, r') := r.next
  (pool.getD (n % pool.length) 0, r')

/-- Index selected by cumulative-weight inversion: the first index whose
cumulative weight exceeds `n`. -/
def pickWeighted : List Nat → Nat → Nat
  | [], _ => 0
  | c :: rest, n => if n < c then 0 else pickWeighted rest (n - c) + 1

/-- Models `rng.choice(pool, p=w/w.sum())`: weighted draw over `pool` with
(unnormalised) weight `wt x` for element `x`.  A pool of total weight zero
(undefined normalisation in the source) falls back to a positional pick. -/
def choiceWeighted (r : RNG) (pool : List Nat) (wt : Nat → Nat) : Nat × RNG :=
  let (n, r') := r.next
  let ws := pool.map wt
  let total := ws.sum
  if total = 0 then (pool.getD (n % pool.length) 0, r')
  else (pool.getD (pickWeighted ws (n % total)) 0, r')

/-- Models `rng.choice(pool, p=…, size=k, replace=False)`: `k` sequential
weighted draws, removing each drawn element from the pool. -/
def sampleWoR (r : RNG) (pool : List Nat) (wt : Nat → Nat) : Nat → List Nat × RNG
  | 0 => ([], r)
  | k + 1 =>
    let (x, r') := choiceWeighted r pool wt
    let (rest, r'') := sampleWoR r' (pool.erase x) wt k
    (x :: rest, r'')

/-- Thread the generator through one sampling call per list element, in list
order (models a Python list comprehension of `rng.choice` calls). -/
def mapRng (f : RNG → α → Nat × RNG) (r : RNG) : List α → List Nat × RNG
  | [] => ([], r)
  | x :: xs =>
    let (y, r') := f r x
    let (ys, r'') := mapRng f r' xs
    (y :: ys, r'')

/-- Python index normalisation for slice bounds: negative indices count from
the end, and bounds are clamped to `[0, len]`. -/
def pyIdx (len : Nat) (i : Int) : Nat :=
  if i < 0 then ((len : Int) + i).toNat else min i.toNat len

/-- Python list slice `a[start:stop]`. -/
def pySlice (a : List α) (start stop : Int) : List α :=
  let s := pyIdx a.length start
  let e := pyIdx a.length stop
  (a.drop s).take (e - s)

/-- The corpus-statistics artifact (`data/meta.pkl`), with the string side of
the vocabulary composed away: counts are indexed directly by token id. -/
structure CorpusMeta where
  vocab_size : Nat
  unigrams : Nat → Nat
  bigrams : Nat → Nat → Nat
deriving Inhabited

/-- Comparison used to model `np.argsort(self.marginal)`: ascending count,
ties broken by index. -/
def argRel (w : Nat → Nat) (i j : Nat) : Prop :=
  w i < w j ∨ (w i = w j ∧ i ≤ j)

instance (w : Nat → Nat) : DecidableRel (argRel w) := fun i j => by
  unfold argRel; infer_instance

instance (w : Nat → Nat) : IsTotal Nat (argRel w) where
  total i j := by
    unfold argRel
    rcases Nat.lt_trichotomy (w i) (w j) with h | h | h
    · exact Or.inl (Or.inl h)
    · rcases Nat.le_total i j with hij | hij
      · exact Or.inl (Or.inr ⟨h, hij⟩)
      · exact Or.inr (Or.inr ⟨h.symm, hij⟩)
    · exact Or.inr (Or.inl h)

instance (w : Nat → Nat) : IsTrans Nat (argRel w) where
  trans i j k hij hjk := by
    unfold argRel at *
    rcases hij with h₁ | ⟨h₁, h₁'⟩ <;> rcases hjk with h₂ | ⟨h₂, h₂'⟩
    · exact Or.inl (h₁.trans h₂)
    · exact Or.inl (h₂ ▸ h₁)
    · exact Or.inl (h₁ ▸ h₂)
    · exact Or.inr ⟨h₁.trans h₂, h₁'.trans h₂'⟩

/-- Models `self.marginal.argsort()`: the token ids `0, …, V-1` sorted by
ascending marginal count. -/
def argsortM (m : CorpusMeta) : List Nat :=
  List.insertionSort (argRel m.unigrams) (List.range m.vocab_size)

/-- Rank of token `t` counted from the most frequent end: the number of
tokens with a strictly larger marginal count. -/
def rankTop (m : CorpusMeta) (t : Nat) : Nat :=
  ((List.range m.vocab_size).filter (fun u => decide (m.unigrams t < m.unigrams u))).length

/-- The `DataArgs` configuration dataclass. -/
structure DataArgs where
  k : Nat := 0
  seq_length : Nat := 256
  show_latents : Bool := false
  fixed_special_toks : Bool := false
  special_toks_offset : Int := 0
  output_counter : Bool := true
  no_repeat : Bool := false
deriving Repr, Inhabited

/-- The two accepted values of the `train_test` string argument (any other
value makes `gen_seq` assert-fail). -/
inductive TrainTest
  | train
  | test
deriving DecidableEq, Repr, Inhabited

/-- The state of a constructed `Dataset` object. -/
structure Dataset where
  k : Nat
  seq_length : Nat
  show_latents : Bool
  train_test : Option TrainTest
  output_counter : Bool
  no_repeat : Bool
  bigram_outs : Bool
  meta : CorpusMeta
  n_train_toks : Nat
  idxs : Option (List Nat)
deriving Inhabited

/-- `self.tok_range`: the list `[0, …, V-1]` of all token ids. -/
def tokRange (d : Dataset) : List Nat := List.range d.meta.vocab_size

/-- The record built by `Dataset.__init__` when its assertion passes.
`n_train_toks` is `int(0.75 * vocab_size)`; in fixed mode `idxs` is
`marginal.argsort()[V - offset - k : V - offset]`. -/
def buildDataset (args : DataArgs) (train_test : Option TrainTest) (bigram_outs : Bool)
    (meta : CorpusMeta) : Dataset :=
  { k := args.k
    seq_length := args.seq_length
    show_latents := args.show_latents
    train_test := train_test
    output_counter := args.output_counter
    no_repeat := args.no_repeat
    bigram_outs := bigram_outs
    meta := meta
    n_train_toks := if train_test.isSome then 3 * meta.vocab_size / 4 else meta.vocab_size
    idxs :=
      if args.fixed_special_toks then
        some (pySlice (argsortM meta)
          ((meta.vocab_size : Int) - args.special_toks_offset - (args.k : Int))
          ((meta.vocab_size : Int) - args.special_toks_offset))
      else none }

/-- `Dataset.__init__`: fails (assertion) when an OOD split is requested
together with bigram-weighted outputs, otherwise builds the record. -/
def mkDataset (args : DataArgs) (train_test : Option TrainTest) (bigram_outs : Bool)
    (meta : CorpusMeta) : Option Dataset :=
  if train_test.isSome && bigram_outs then none
  else some (buildDataset args train_test bigram_outs meta)

/-- The trigger ids used for one `gen_seq` call: the fixed `self.idxs` when
present, else `rng.choice(tok_range, p=marginal, size=k, replace=False)`. -/
def seqTriggers (d : Dataset) (r : RNG) : List Nat × RNG :=
  match d.idxs with
  | some is => (is, r)
  | none => sampleWoR r (tokRange d) d.meta.unigrams d.k

/-- The per-trigger candidate pools: a copy of `tok_range` with the trigger's
own id removed when `no_repeat` is set, else `tok_range` itself. -/
def seqPools (d : Dataset) (idxs : List Nat) : List (List Nat) :=
  if d.no_repeat then idxs.map (fun i => (tokRange d).erase i)
  else idxs.map (fun _ => tokRange d)

/-- The per-trigger response tokens for one `gen_seq` call, per sampling mode:
no split + bigram weights, no split + uniform, train slice, test slice. -/
def seqOuts (d : Dataset) (idxs : List Nat) (pools : List (List Nat)) (r : RNG) :
    List Nat × RNG :=
  match d.train_test with
  | none =>
    if d.bigram_outs then
      mapRng (fun r pi => choiceWeighted r pi.1 (d.meta.bigrams pi.2)) r (pools.zip idxs)
    else
      mapRng (fun r pool => choiceUniform r pool) r pools
  | some TrainTest.train =>
    mapRng (fun r pool => choiceUniform r (pool.take d.n_train_toks)) r pools
  | some TrainTest.test =>
    mapRng (fun r pool => choiceUniform r (pool.drop d.n_train_toks)) r pools

/-- Number of latent seed tokens placed before the first marginal draw:
`len(idxs)` when `show_latents`, else `0`. -/
def seedLen (d : Dataset) (idxs : List Nat) : Nat :=
  if d.show_latents then idxs.length else 0

/-- The `while len(seq) < seq_length + 1` loop of `gen_seq`.  Each iteration
inspects `last = seq[-1]`: a trigger appends its precomputed response and a
counter value (running count if `output_counter`, else the constant 1); a
background token appends a draw from `cond[last]` and the value 0.  `fuel`
bounds the iteration count (the loop adds one element per iteration, so
`seq_length + 1` iterations always suffice). -/
def genLoop (d : Dataset) (idxs outs : List Nat) :
    Nat → List Nat → List Int → (Nat → Nat) → RNG → List Nat × List Int × (Nat → Nat) × RNG
  | 0, seq, ann, cnts, r => (seq, ann, cnts, r)
  | fuel + 1, seq, ann, cnts, r =>
    if seq.length < d.seq_length + 1 then
      let last := seq.getD (seq.length - 1) 0
      if last ∈ idxs then
        let out := outs.getD (idxs.indexOf last) 0
        if d.output_counter then
          genLoop d idxs outs fuel (seq ++ [out]) (ann ++ [((cnts last + 1 : Nat) : Int)])
            (fun t => if t = last then cnts t + 1 else cnts t) r
        else
          genLoop d idxs outs fuel (seq ++ [out]) (ann ++ [1]) cnts r
      else
        let pr := choiceWeighted r (tokRange d) (d.meta.bigrams last)
        genLoop d idxs outs fuel (seq ++ [pr.1]) (ann ++ [0]) cnts pr.2
    else (seq, ann, cnts, r)

/-- `Dataset.gen_seq`: select triggers, pools and responses, seed the sequence
(latent trigger ids with sentinel value -1 when `show_latents`, else empty),
append one marginal draw, run the generation loop, and close the parallel
value list with a final 0. -/
def gen_seq (d : Dataset) (r : RNG) : (List Nat × List Int) × RNG :=
  let tr := seqTriggers d r
  let idxs := tr.1
  let pools := seqPools d idxs
  let so := seqOuts d idxs pools tr.2
  let outs := so.1
  let seed : List Nat := if d.show_latents then idxs else []
  let ann0 : List Int := if d.show_latents then List.replicate idxs.length (-1) else []
  let m := choiceWeighted so.2 (tokRange d) d.meta.unigrams
  let res := genLoop d idxs outs (d.seq_length + 1) (seed ++ [m.1]) ann0 (fun _ => 0) m.2
  ((res.1, res.2.1 ++ [0]), res.2.2.2)

/-- The accumulation loop of `gen_batch`: `batch_size` sequential `gen_seq`
calls, concatenating the sequences and the value lists. -/
def gen_seqs_flat (d : Dataset) (r : RNG) : Nat → (List Nat × List Int) × RNG
  | 0 => (([], []), r)
  | n + 1 =>
    let s := gen_seq d r
    let rest := gen_seqs_flat d s.2 n
    ((s.1.1 ++ rest.1.1, s.1.2 ++ rest.1.2), rest.2)

/-- `np.array(·).reshape(rows, cols)` on a flat list (defined when the flat
length is `rows * cols`). -/
def reshape (rows cols : Nat) (l : List α) : List (List α) :=
  (List.range rows).map (fun i => (l.drop (i * cols)).take cols)

/-- `Dataset.gen_batch`: generate `batch_size` sequences and reshape the flat
token and value lists into `(batch_size, seq_length + 1)` arrays. -/
def gen_batch (d : Dataset) (r : RNG) (batch_size : Nat) :
    (List (List Nat) × List (List Int)) × RNG :=
  let f := gen_seqs_flat d r batch_size
  ((reshape batch_size (d.seq_length + 1) f.1.1,
    reshape batch_size (d.seq_length + 1) f.1.2), f.2)

/-- The generator state of `iterate_batches` just before pulling batch `n`:
seeded once with `np.random.default_rng(seed)` and advanced only by the
`gen_batch` calls. -/
def streamRng (d : Dataset) (batch_size seed : Nat) : Nat → RNG
  | 0 => mkRng seed
  | n + 1 => (gen_batch d (streamRng d batch_size seed n) batch_size).2

/-- The `n`-th triple yielded by `iterate_batches`:
`(x[:, :-1], x[:, 1:], outs[:, :-1])`. -/
def iterate_batches (d : Dataset) (batch_size seed n : Nat) :
    List (List Nat) × List (List Nat) × List (List Int) :=
  let b := gen_batch d (streamRng d batch_size seed n) batch_size
  (b.1.1.map (fun row => row.take (row.length - 1)),
   b.1.1.map (fun row => row.drop 1),
   b.1.2.map (fun row => row.take (row.length - 1)))

/-! ### Invariant predicates and concrete configurations -/

/-- What one processed position `j` of the loop looks like: a trigger firing
(next token is the trigger's precomputed response; value is the running count
of that trigger up to and including `j`, or the constant 1) or a background
step (value 0). -/
def posFact (d : Dataset) (idxs outs : List Nat) (sL : Nat)
    (seq : List Nat) (ann : List Int) (j : Nat) : Prop :=
  if seq.getD j 0 ∈ idxs then
    seq.getD (j + 1) 0 = outs.getD (idxs.indexOf (seq.getD j 0)) 0 ∧
    ann.getD j 0 = (if d.output_counter = true then
        (((seq.drop sL).take (j + 1 - sL)).count (seq.getD j 0) : Int) else 1)
  else ann.getD j 0 = 0

/-- The loop invariant of `gen_seq`: sequence and running value list stay in
step; `cnts` holds, for each trigger, the number of its firings among the
already processed positions `sL, …, ann.length - 1`; and every processed
position `j ≥ sL` satisfies `posFact`. -/
def posInv (d : Dataset) (idxs outs : List Nat) (sL : Nat)
    (seq : List Nat) (ann : List Int) (cnts : Nat → Nat) : Prop :=
  ann.length + 1 = seq.length ∧
  sL + 1 ≤ seq.length ∧
  (d.output_counter = true → ∀ t, cnts t =
     if t ∈ idxs then ((seq.drop sL).take (ann.length - sL)).count t else 0) ∧
  ∀ j, sL ≤ j → j + 1 < seq.length → posFact d idxs outs sL seq ann j

/-- The positional slice of a trigger's candidate pool that the active
sampling mode draws from: the whole pool when no OOD split is active, its
first `n_train_toks` positions in train mode, the remaining positions in
test mode. -/
def drawnSlice (d : Dataset) (pool : List Nat) : List Nat :=
  match d.train_test with
  | none => pool
  | some TrainTest.train => pool.take d.n_train_toks
  | some TrainTest.test => pool.drop d.n_train_toks

/-- Concrete one-token corpus used to exercise the theorems. -/
def metaW1 : CorpusMeta := ⟨1, fun _ => 1, fun _ _ => 1⟩

/-- Concrete three-token corpus with pairwise-distinct unigram counts. -/
def metaW3 : CorpusMeta := ⟨3, fun t => t + 1, fun _ _ => 1⟩

/-- Concrete five-token corpus with pairwise-distinct unigram counts. -/
def metaW5 : CorpusMeta := ⟨5, fun t => t + 1, fun i j => i + j + 1⟩

/-- Configuration with latent seeds shown and more triggers than positions. -/
def argsC1 : DataArgs := { k := 2, seq_length := 1, show_latents := true }

/-- Dataset built from `argsC1` over the three-token corpus. -/
def dsC1 : Dataset := (mkDataset argsC1 none false metaW3).getD default

/-- Fixed-trigger configuration whose rank window overflows the vocabulary. -/
def argsC4 : DataArgs :=
  { k := 3, seq_length := 2, fixed_special_toks := true, special_toks_offset := 1 }

/-- Dataset built from `argsC4` over the three-token corpus. -/
def dsC4 : Dataset := (mkDataset argsC4 none false metaW3).getD default

/-- Trivial trigger-free configuration over the one-token corpus. -/
def argsW0 : DataArgs := { k := 0, seq_length := 1 }

/-- Dataset built from `argsW0`. -/
def dsW0 : Dataset := (mkDataset argsW0 none false metaW1).getD default

/-- One fixed trigger over the one-token corpus: every step is triggered. -/
def argsW5 : DataArgs := { k := 1, seq_length := 2, fixed_special_toks := true }

/-- Dataset built from `argsW5`. -/
def dsW5 : Dataset := (mkDataset argsW5 none false metaW1).getD default

/-- Fixed-window configuration over the five-token corpus. -/
def argsW4 : DataArgs :=
  { k := 2, seq_length := 2, fixed_special_toks := true, special_toks_offset := 1 }

/-- Dataset built from `argsW4`. -/
def dsW4 : Dataset := (mkDataset argsW4 none false metaW5).getD default

/-- Concrete five-token corpus with a uniform marginal (tied counts). -/
def metaU5 : CorpusMeta := ⟨5, fun _ => 1, fun _ _ => 1⟩

/-- One fixed trigger at offset 0 over the uniform five-token corpus (the
specification's concrete scenario: V = 5, uniform marginal, k = 1). -/
def argsU4 : DataArgs := { k := 1, seq_length := 2, fixed_special_toks := true }

/-- Dataset built from `argsU4` over the uniform corpus. -/
def dsU4 : Dataset := (mkDataset argsU4 none false metaU5).getD default

/-- Self-exclusion configuration over the five-token corpus. -/
def argsW6 : DataArgs :=
  { k := 1, seq_length := 2, fixed_special_toks := true, no_repeat := true }

/-- Dataset built from `argsW6`. -/
def dsW6 : Dataset := (mkDataset argsW6 none false metaW5).getD default

/-- Fixed-trigger configuration used with the train split. -/
def argsW3 : DataArgs := { k := 1, seq_length := 2, fixed_special_toks := true }

/-- Dataset built from `argsW3` with the train split active. -/
def dsWtr : Dataset := (mkDataset argsW3 (some TrainTest.train) false metaW5).getD default

/-! ### Basic list lemmas used throughout -/

theorem getD_append_lt {α : Type} (l l' : List α) (i : Nat) (h : i < l.length) (dflt : α) :
    (l ++ l').getD i dflt = l.getD i dflt := by
  rw [List.getD_eq_getElem?_getD, List.getD_eq_getElem?_getD, List.getElem?_append_left h]

theorem getD_append_len {α : Type} (l l' : List α) (dflt : α) :
    (l ++ l').getD l.length dflt = l'.getD 0 dflt := by
  rw [List.getD_eq_getElem?_getD, List.getD_eq_getElem?_getD,
    List.getElem?_append_right (Nat.le_refl _)]
  simp

theorem getD_mem {l : List Nat} {n : Nat} (h : n < l.length) (d : Nat) : l.getD n d ∈ l := by
  rw [List.getD_eq_getElem l d h]; exact List.getElem_mem h

/-! ### Sampling primitives -/

theorem pickWeighted_lt (ws : List Nat) (n : Nat) (h : n < ws.sum) :
    pickWeighted ws n < ws.length := by
  induction ws generalizing n with
  | nil => simp at h
  | cons c rest ih =>
    simp only [pickWeighted]
    split
    · simp
    · next hc =>
      have hn : n - c < rest.sum := by simp only [List.sum_cons] at h; omega
      simpa [Nat.succ_lt_succ_iff] using ih _ hn

theorem choiceUniform_mem (r : RNG) (pool : List Nat) (h : pool ≠ []) :
    (choiceUniform r pool).1 ∈ pool := by
  have hl : 0 < pool.length := List.length_pos.mpr h
  simp only [choiceUniform, RNG.next]
  exact getD_mem (Nat.mod_lt _ hl) 0

theorem choiceWeighted_mem (r : RNG) (pool : List Nat) (wt : Nat → Nat) (h : pool ≠ []) :
    (choiceWeighted r pool wt).1 ∈ pool := by
  have hl : 0 < pool.length := List.length_pos.mpr h
  simp only [choiceWeighted, RNG.next]
  split
  · exact getD_mem (Nat.mod_lt _ hl) 0
  · next ht =>
    have hlt : (lcgStep r.state) % (pool.map wt).sum < (pool.map wt).sum :=
      Nat.mod_lt _ (Nat.pos_of_ne_zero ht)
    have := pickWeighted_lt (pool.map wt) _ hlt
    rw [List.length_map] at this
    exact getD_mem this 0

theorem sampleWoR_length (wt : Nat → Nat) :
    ∀ (k : Nat) (pool : List Nat) (r : RNG), (sampleWoR r pool wt k).1.length = k := by
  intro k
  induction k with
  | zero => intro pool r; rfl
  | succ k ih => intro pool r; simp [sampleWoR, ih]

theorem sampleWoR_mem (wt : Nat → Nat) :
    ∀ (k : Nat) (pool : List Nat) (r : RNG), k ≤ pool.length →
      ∀ y ∈ (sampleWoR r pool wt k).1, y ∈ pool := by
  intro k
  induction k with
  | zero => intro pool r _ y hy; simp [sampleWoR] at hy
  | succ k ih =>
    intro pool r hk y hy
    have hne : pool ≠ [] := by
      intro he; rw [he] at hk; simp at hk
    have hx : (choiceWeighted r pool wt).1 ∈ pool := choiceWeighted_mem _ _ _ hne
    simp only [sampleWoR, List.mem_cons] at hy
    rcases hy with hy | hy
    · exact hy ▸ hx
    · have hlen : k ≤ (pool.erase (choiceWeighted r pool wt).1).length := by
        rw [List.length_erase]
        simp only [hx, if_pos]
        omega
      exact List.erase_subset _ _ (ih _ _ hlen y hy)

theorem sampleWoR_nodup (wt : Nat → Nat) :
    ∀ (k : Nat) (pool : List Nat) (r : RNG), k ≤ pool.length → pool.Nodup →
      (sampleWoR r pool wt k).1.Nodup := by
  intro k
  induction k with
  | zero => intro pool r _ _; simp [sampleWoR]
  | succ k ih =>
    intro pool r hk hnd
    have hne : pool ≠ [] := by intro he; rw [he] at hk; simp at hk
    have hx : (choiceWeighted r pool wt).1 ∈ pool := choiceWeighted_mem _ _ _ hne
    have hlen : k ≤ (pool.erase (choiceWeighted r pool wt).1).length := by
      rw [List.length_erase]; simp only [hx, if_pos]; omega
    simp only [sampleWoR, List.nodup_cons]
    constructor
    · intro hmem
      have := sampleWoR_mem wt k _ _ hlen _ hmem
      exact ((hnd.mem_erase_iff).mp this).1 rfl
    · exact ih _ _ hlen (hnd.erase _)

theorem mapRng_length {α : Type} (f : RNG → α → Nat × RNG) :
    ∀ (l : List α) (r : RNG), (mapRng f r l).1.length = l.length := by
  intro l
  induction l with
  | nil => intro r; rfl
  | cons x xs ih => intro r; simp [mapRng, ih]

theorem mapRng_spec {α : Type} (f : RNG → α → Nat × RNG) (Q : α → Nat → Prop) :
    ∀ (l : List α) (r : RNG), (∀ r' x, x ∈ l → Q x (f r' x).1) →
      ∀ (i : Nat), i < l.length → ∀ (da : α),
        Q (l.getD i da) ((mapRng f r l).1.getD i 0) := by
  intro l
  induction l with
  | nil => intro r _ i hi; simp at hi
  | cons x xs ih =>
    intro r hf i hi da
    match i with
    | 0 => simpa [mapRng] using hf r x (by simp)
    | Nat.succ j =>
      have hj : j < xs.length := by simpa [Nat.succ_lt_succ_iff] using hi
      simpa [mapRng] using ih _ (fun r' y hy => hf r' y (by simp [hy])) j hj da

/-! ### Generation-loop lemmas -/

theorem genLoop_seq_length (d : Dataset) (idxs outs : List Nat) :
    ∀ (fuel : Nat) (seq : List Nat) (ann : List Int) (cnts : Nat → Nat) (r : RNG),
      (genLoop d idxs outs fuel seq ann cnts r).1.length =
        if seq.length < d.seq_length + 1 then min (d.seq_length + 1) (seq.length + fuel)
        else seq.length := by
  intro fuel
  induction fuel with
  | zero =>
    intro seq ann cnts r
    simp only [genLoop]
    split <;> omega
  | succ fuel ih =>
    intro seq ann cnts r
    simp only [genLoop]
    split
    · next hlen =>
      split
      · split
        · rw [ih]; simp only [List.length_append, List.length_singleton]; split <;> omega
        · rw [ih]; simp only [List.length_append, List.length_singleton]; split <;> omega
      · rw [ih]; simp only [List.length_append, List.length_singleton]; split <;> omega
    · rfl

theorem genLoop_ann_length (d : Dataset) (idxs outs : List Nat) :
    ∀ (fuel : Nat) (seq : List Nat) (ann : List Int) (cnts : Nat → Nat) (r : RNG),
      ann.length + 1 = seq.length →
      (genLoop d idxs outs fuel seq ann cnts r).2.1.length + 1 =
        (genLoop d idxs outs fuel seq ann cnts r).1.length := by
  intro fuel
  induction fuel with
  | zero => intro seq ann cnts r h; simpa [genLoop] using h
  | succ fuel ih =>
    intro seq ann cnts r h
    simp only [genLoop]
    split
    · split
      · split
        · exact ih _ _ _ _ (by simp; omega)
        · exact ih _ _ _ _ (by simp; omega)
      · exact ih _ _ _ _ (by simp; omega)
    · simpa using h

theorem genLoop_preserve (d : Dataset) (idxs outs : List Nat)
    (P : List Nat → List Int → (Nat → Nat) → Prop)
    (hT : ∀ seq ann cnts, P seq ann cnts → seq.length < d.seq_length + 1 →
      seq.getD (seq.length - 1) 0 ∈ idxs → d.output_counter = true →
      P (seq ++ [outs.getD (idxs.indexOf (seq.getD (seq.length - 1) 0)) 0])
        (ann ++ [((cnts (seq.getD (seq.length - 1) 0) + 1 : Nat) : Int)])
        (fun t => if t = seq.getD (seq.length - 1) 0 then cnts t + 1 else cnts t))
    (hT' : ∀ seq ann cnts, P seq ann cnts → seq.length < d.seq_length + 1 →
      seq.getD (seq.length - 1) 0 ∈ idxs → d.output_counter = false →
      P (seq ++ [outs.getD (idxs.indexOf (seq.getD (seq.length - 1) 0)) 0]) (ann ++ [1]) cnts)
    (hB : ∀ seq ann cnts (r : RNG), P seq ann cnts → seq.length < d.seq_length + 1 →
      seq.getD (seq.length - 1) 0 ∉ idxs →
      P (seq ++ [(choiceWeighted r (tokRange d) (d.meta.bigrams (seq.getD (seq.length - 1) 0))).1])
        (ann ++ [0]) cnts) :
    ∀ (fuel : Nat) (seq : List Nat) (ann : List Int) (cnts : Nat → Nat) (r : RNG),
      P seq ann cnts →
      P (genLoop d idxs outs fuel seq ann cnts r).1
        (genLoop d idxs outs fuel seq ann cnts r).2.1
        (genLoop d idxs outs fuel seq ann cnts r).2.2.1 := by
  intro fuel
  induction fuel with
  | zero => intro seq ann cnts r h; simpa [genLoop] using h
  | succ fuel ih =>
    intro seq ann cnts r h
    simp only [genLoop]
    split
    · next hlen =>
      split
      · next hmem =>
        split
        · next hoc => exact ih _ _ _ _ (hT _ _ _ h hlen hmem hoc)
        · next hoc => exact ih _ _ _ _ (hT' _ _ _ h hlen hmem (by simpa using hoc))
      · next hmem => exact ih _ _ _ _ (hB _ _ _ r h hlen hmem)
    · exact h

theorem getD_drop {α : Type} (l : List α) (m n : Nat) (d : α) :
    (l.drop m).getD n d = l.getD (m + n) d := by
  rw [List.getD_eq_getElem?_getD, List.getD_eq_getElem?_getD, List.getElem?_drop]

theorem getD_take {α : Type} (l : List α) (m n : Nat) (h : n < m) (d : α) :
    (l.take m).getD n d = l.getD n d := by
  rw [List.getD_eq_getElem?_getD, List.getD_eq_getElem?_getD]
  simp [List.getElem?_take, h]

theorem window_append (seq : List Nat) (x : Nat) (sL m : Nat) (hsL : sL ≤ seq.length)
    (hm : m ≤ seq.length - sL) :
    ((seq ++ [x]).drop sL).take m = (seq.drop sL).take m := by
  rw [List.drop_append_of_le_length hsL,
    List.take_append_of_le_length (by simp [List.length_drop]; omega)]

theorem count_take_succ (l : List Nat) (m : Nat) (hm : m < l.length) (t : Nat) :
    (l.take (m + 1)).count t = (l.take m).count t + if l.getD m 0 = t then 1 else 0 := by
  rw [List.take_succ, List.count_append, List.getElem?_eq_getElem hm]
  rw [List.getD_eq_getElem l 0 hm]
  simp [List.count_singleton']

theorem count_window_extend (seq : List Nat) (x : Nat) (sL : Nat) (t : Nat)
    (hsL : sL + 1 ≤ seq.length) :
    (((seq ++ [x]).drop sL).take (seq.length - sL)).count t =
      ((seq.drop sL).take (seq.length - 1 - sL)).count t +
        if seq.getD (seq.length - 1) 0 = t then 1 else 0 := by
  rw [window_append seq x sL _ (by omega) (by omega)]
  have hlen : (seq.drop sL).length = seq.length - sL := List.length_drop sL seq
  have hm : seq.length - 1 - sL < (seq.drop sL).length := by omega
  have heq : seq.length - sL = (seq.length - 1 - sL) + 1 := by omega
  rw [heq, count_take_succ (seq.drop sL) _ hm t, getD_drop]
  have hidx : sL + (seq.length - 1 - sL) = seq.length - 1 := by omega
  rw [hidx]

theorem posFact_append_old (d : Dataset) (idxs outs : List Nat) (sL : Nat)
    (seq : List Nat) (ann : List Int) (x : Nat) (v : Int) (j : Nat)
    (hl : ann.length + 1 = seq.length) (hsl : sL ≤ seq.length) (hj2 : j + 1 < seq.length)
    (h : posFact d idxs outs sL seq ann j) :
    posFact d idxs outs sL (seq ++ [x]) (ann ++ [v]) j := by
  unfold posFact at h ⊢
  simp only [getD_append_lt seq [x] j (by omega) 0, getD_append_lt seq [x] (j + 1) hj2 0,
    getD_append_lt ann [v] j (by omega) 0,
    window_append seq x sL (j + 1 - sL) hsl (by omega)]
  exact h

theorem posInv_step_trigCnt (d : Dataset) (idxs outs : List Nat) (sL : Nat)
    (seq : List Nat) (ann : List Int) (cnts : Nat → Nat)
    (h : posInv d idxs outs sL seq ann cnts)
    (hmem : seq.getD (seq.length - 1) 0 ∈ idxs) (hoc : d.output_counter = true) :
    posInv d idxs outs sL (seq ++ [outs.getD (idxs.indexOf (seq.getD (seq.length - 1) 0)) 0])
      (ann ++ [((cnts (seq.getD (seq.length - 1) 0) + 1 : Nat) : Int)])
      (fun t => if t = seq.getD (seq.length - 1) 0 then cnts t + 1 else cnts t) := by
  obtain ⟨hl, hsl, hcnt, hpos⟩ := h
  refine ⟨by simp; omega, by simp; omega, ?_, ?_⟩
  · intro _ t
    simp only []
    rw [show (ann ++ [((cnts (seq.getD (seq.length - 1) 0) + 1 : Nat) : Int)]).length - sL =
        seq.length - sL by simp; omega]
    rw [count_window_extend seq _ sL t hsl]
    have hold := hcnt hoc
    have hwl : ann.length - sL = seq.length - 1 - sL := by omega
    by_cases ht : t = seq.getD (seq.length - 1) 0
    · subst ht
      rw [if_pos rfl, if_pos hmem, if_pos rfl]
      have h1 := hold (seq.getD (seq.length - 1) 0)
      rw [if_pos hmem, hwl] at h1
      omega
    · rw [if_neg ht]
      by_cases hti : t ∈ idxs
      · rw [if_pos hti, if_neg (fun he => ht he.symm), Nat.add_zero]
        have h1 := hold t
        rw [if_pos hti, hwl] at h1
        exact h1
      · rw [if_neg hti]
        have h1 := hold t
        rw [if_neg hti] at h1
        exact h1
  · intro j hj hj2
    simp only [List.length_append, List.length_singleton] at hj2
    rcases Nat.lt_or_ge (j + 1) seq.length with hlt | hge
    · exact posFact_append_old d idxs outs sL seq ann _ _ j hl (by omega) hlt (hpos j hj hlt)
    · have hj1 : j + 1 = seq.length := by omega
      have hja : j = ann.length := by omega
      unfold posFact
      have hgj : (seq ++ [outs.getD (idxs.indexOf (seq.getD (seq.length - 1) 0)) 0]).getD j 0 =
          seq.getD (seq.length - 1) 0 := by
        rw [getD_append_lt seq _ j (by omega) 0, show j = seq.length - 1 by omega]
      simp only [hgj]
      rw [if_pos hmem]
      constructor
      · rw [show j + 1 = seq.length from hj1]
        rw [getD_append_len]
        simp only [List.getD_cons_zero]
      · rw [show j = ann.length from hja, getD_append_len]
        simp only [List.getD_cons_zero]
        rw [if_pos hoc]
        have hnat : cnts (seq.getD (seq.length - 1) 0) + 1 =
            (((seq ++ [outs.getD (idxs.indexOf (seq.getD (seq.length - 1) 0)) 0]).drop sL).take
              (ann.length + 1 - sL)).count (seq.getD (seq.length - 1) 0) := by
          rw [show ann.length + 1 = seq.length from hl, count_window_extend seq _ sL _ hsl,
            if_pos rfl]
          have h1 := hcnt hoc (seq.getD (seq.length - 1) 0)
          rw [if_pos hmem, show ann.length - sL = seq.length - 1 - sL by omega] at h1
          omega
        exact_mod_cast congrArg (fun n : Nat => (n : Int)) hnat

theorem posInv_step_trigNoCnt (d : Dataset) (idxs outs : List Nat) (sL : Nat)
    (seq : List Nat) (ann : List Int) (cnts : Nat → Nat)
    (h : posInv d idxs outs sL seq ann cnts)
    (hmem : seq.getD (seq.length - 1) 0 ∈ idxs) (hoc : d.output_counter = false) :
    posInv d idxs outs sL (seq ++ [outs.getD (idxs.indexOf (seq.getD (seq.length - 1) 0)) 0])
      (ann ++ [1]) cnts := by
  obtain ⟨hl, hsl, hcnt, hpos⟩ := h
  refine ⟨by simp; omega, by simp; omega, ?_, ?_⟩
  · intro hoc'
    rw [hoc] at hoc'
    exact absurd hoc' (by simp)
  · intro j hj hj2
    simp only [List.length_append, List.length_singleton] at hj2
    rcases Nat.lt_or_ge (j + 1) seq.length with hlt | hge
    · exact posFact_append_old d idxs outs sL seq ann _ _ j hl (by omega) hlt (hpos j hj hlt)
    · have hj1 : j + 1 = seq.length := by omega
      have hja : j = ann.length := by omega
      unfold posFact
      have hgj : (seq ++ [outs.getD (idxs.indexOf (seq.getD (seq.length - 1) 0)) 0]).getD j 0 =
          seq.getD (seq.length - 1) 0 := by
        rw [getD_append_lt seq _ j (by omega) 0, show j = seq.length - 1 by omega]
      simp only [hgj]
      rw [if_pos hmem]
      constructor
      · rw [show j + 1 = seq.length from hj1]
        rw [getD_append_len]
        simp only [List.getD_cons_zero]
      · rw [show j = ann.length from hja, getD_append_len]
        simp only [List.getD_cons_zero]
        rw [if_neg (by simp [hoc])]

theorem posInv_step_bg (d : Dataset) (idxs outs : List Nat) (sL : Nat)
    (seq : List Nat) (ann : List Int) (cnts : Nat → Nat) (x : Nat)
    (h : posInv d idxs outs sL seq ann cnts)
    (hmem : seq.getD (seq.length - 1) 0 ∉ idxs) :
    posInv d idxs outs sL (seq ++ [x]) (ann ++ [0]) cnts := by
  obtain ⟨hl, hsl, hcnt, hpos⟩ := h
  refine ⟨by simp; omega, by simp; omega, ?_, ?_⟩
  · intro hoc t
    rw [show (ann ++ [(0 : Int)]).length - sL = seq.length - sL by simp; omega]
    rw [count_window_extend seq _ sL t hsl]
    have h1 := hcnt hoc t
    by_cases hti : t ∈ idxs
    · rw [if_pos hti]
      rw [if_pos hti, show ann.length - sL = seq.length - 1 - sL by omega] at h1
      rw [if_neg (show ¬seq.getD (seq.length - 1) 0 = t from
        fun he => hmem (he.symm ▸ hti)), Nat.add_zero]
      exact h1
    · rw [if_neg hti]
      rw [if_neg hti] at h1
      exact h1
  · intro j hj hj2
    simp only [List.length_append, List.length_singleton] at hj2
    rcases Nat.lt_or_ge (j + 1) seq.length with hlt | hge
    · exact posFact_append_old d idxs outs sL seq ann _ _ j hl (by omega) hlt (hpos j hj hlt)
    · have hj1 : j + 1 = seq.length := by omega
      have hja : j = ann.length := by omega
      unfold posFact
      have hgj : (seq ++ [x]).getD j 0 = seq.getD (seq.length - 1) 0 := by
        rw [getD_append_lt seq _ j (by omega) 0, show j = seq.length - 1 by omega]
      simp only [hgj]
      rw [if_neg hmem]
      rw [show j = ann.length from hja, getD_append_len]
      simp only [List.getD_cons_zero]

theorem genLoop_posInv (d : Dataset) (idxs outs : List Nat) (sL : Nat)
    (fuel : Nat) (seq : List Nat) (ann : List Int) (cnts : Nat → Nat) (r : RNG)
    (h : posInv d idxs outs sL seq ann cnts) :
    posInv d idxs outs sL (genLoop d idxs outs fuel seq ann cnts r).1
      (genLoop d idxs outs fuel seq ann cnts r).2.1
      (genLoop d idxs outs fuel seq ann cnts r).2.2.1 :=
  genLoop_preserve d idxs outs (posInv d idxs outs sL)
    (fun seq ann cnts h _ hmem hoc => posInv_step_trigCnt d idxs outs sL seq ann cnts h hmem hoc)
    (fun seq ann cnts h _ hmem hoc => posInv_step_trigNoCnt d idxs outs sL seq ann cnts h hmem hoc)
    (fun seq ann cnts _r h _ hmem => posInv_step_bg d idxs outs sL seq ann cnts _ h hmem)
    fuel seq ann cnts r h

theorem posFact_ann_append (d : Dataset) (idxs outs : List Nat) (sL : Nat)
    (seq : List Nat) (ann : List Int) (v : Int) (j : Nat) (hj : j < ann.length)
    (h : posFact d idxs outs sL seq ann j) : posFact d idxs outs sL seq (ann ++ [v]) j := by
  unfold posFact at h ⊢
  simp only [getD_append_lt ann [v] j hj 0]
  exact h

theorem seed_length (d : Dataset) (idxs : List Nat) :
    ((if d.show_latents then idxs else []) : List Nat).length = seedLen d idxs := by
  unfold seedLen
  split <;> simp_all

theorem posInv_init (d : Dataset) (idxs outs : List Nat) (m0 : Nat) :
    posInv d idxs outs (seedLen d idxs)
      ((if d.show_latents then idxs else []) ++ [m0])
      (if d.show_latents then List.replicate idxs.length (-1) else [])
      (fun _ => 0) := by
  unfold posInv
  have h0 : ((if d.show_latents then List.replicate idxs.length (-1 : Int)
      else []).length - seedLen d idxs) = 0 := by
    unfold seedLen; split <;> simp_all
  by_cases hb : d.show_latents = true
  · refine ⟨by simp [hb], by simp [seedLen, hb], ?_, ?_⟩
    · intro _ t
      rw [h0]
      simp
    · intro j hj hj2
      simp only [seedLen, hb, if_true] at hj
      simp only [hb, if_true, List.length_append, List.length_singleton] at hj2
      omega
  · refine ⟨by simp [hb], by simp [seedLen, hb], ?_, ?_⟩
    · intro _ t
      rw [h0]
      simp
    · intro j hj hj2
      rw [if_neg hb] at hj2
      simp only [List.nil_append, List.length_singleton] at hj2
      omega

theorem argsortM_perm (m : CorpusMeta) :
    List.Perm (argsortM m) (List.range m.vocab_size) :=
  List.perm_insertionSort _ _

theorem argsortM_length (m : CorpusMeta) : (argsortM m).length = m.vocab_size := by
  rw [(argsortM_perm m).length_eq, List.length_range]

theorem argsortM_nodup (m : CorpusMeta) : (argsortM m).Nodup :=
  ((argsortM_perm m).nodup_iff).mpr (List.nodup_range _)

theorem argsortM_mem (m : CorpusMeta) {x : Nat} : x ∈ argsortM m ↔ x < m.vocab_size := by
  rw [(argsortM_perm m).mem_iff, List.mem_range]

theorem argsortM_sorted (m : CorpusMeta) :
    List.Sorted (argRel m.unigrams) (argsortM m) :=
  List.sorted_insertionSort _ _

theorem pySlice_subset {α : Type} (a : List α) (s e : Int) : pySlice a s e ⊆ a := by
  unfold pySlice
  exact (List.take_subset _ _).trans (List.drop_subset _ _)

theorem mkDataset_some (args : DataArgs) (tt : Option TrainTest) (bo : Bool)
    (meta : CorpusMeta) (d : Dataset) (h : mkDataset args tt bo meta = some d) :
    d = buildDataset args tt bo meta ∧ (tt.isSome && bo) = false := by
  unfold mkDataset at h
  split at h
  · exact absurd h (by simp)
  · next hc => exact ⟨(Option.some.inj h).symm, by simpa using hc⟩

theorem seqTriggers_lt (args : DataArgs) (tt : Option TrainTest) (bo : Bool)
    (meta : CorpusMeta) (d : Dataset) (h : mkDataset args tt bo meta = some d)
    (hk : d.k ≤ meta.vocab_size) (r : RNG) :
    ∀ x ∈ (seqTriggers d r).1, x < meta.vocab_size := by
  obtain ⟨hd, -⟩ := mkDataset_some args tt bo meta d h
  intro x hx
  unfold seqTriggers at hx
  match hidxs : d.idxs with
  | some is =>
    rw [hidxs] at hx
    have : is ⊆ argsortM meta := by
      rw [hd] at hidxs
      unfold buildDataset at hidxs
      simp only at hidxs
      split at hidxs
      · exact (Option.some.inj hidxs) ▸ pySlice_subset _ _ _
      · cases hidxs
    exact (argsortM_mem meta).mp (this hx)
  | none =>
    rw [hidxs] at hx
    have hmeta : d.meta = meta := by rw [hd]; rfl
    have := sampleWoR_mem d.meta.unigrams d.k (tokRange d) r
      (by unfold tokRange; rw [List.length_range, hmeta]; exact hk) x hx
    unfold tokRange at this
    rw [hmeta] at this
    exact List.mem_range.mp this

theorem gen_seq_spec (d : Dataset) (r : RNG) :
    ((gen_seq d r).1.1).length = max (d.seq_length + 1) (seedLen d (seqTriggers d r).1 + 1) ∧
    ((gen_seq d r).1.2).length = ((gen_seq d r).1.1).length ∧
    (∀ j, seedLen d (seqTriggers d r).1 ≤ j → j + 1 < ((gen_seq d r).1.1).length →
      posFact d (seqTriggers d r).1
        (seqOuts d (seqTriggers d r).1 (seqPools d (seqTriggers d r).1) (seqTriggers d r).2).1
        (seedLen d (seqTriggers d r).1) ((gen_seq d r).1.1) ((gen_seq d r).1.2) j) ∧
    ((gen_seq d r).1.2).getD (((gen_seq d r).1.1).length - 1) 0 = 0 := by
  simp only [gen_seq]
  set idxs := (seqTriggers d r).1 with hidxs
  set outs := (seqOuts d idxs (seqPools d idxs) (seqTriggers d r).2).1 with houts
  set m := choiceWeighted (seqOuts d idxs (seqPools d idxs) (seqTriggers d r).2).2
    (tokRange d) d.meta.unigrams with hm
  set seq0 := (if d.show_latents = true then idxs else []) ++ [m.1] with hseq0
  set ann0 := (if d.show_latents = true then List.replicate idxs.length (-1 : Int) else [])
    with hann0
  have hinit : posInv d idxs outs (seedLen d idxs) seq0 ann0 (fun _ => 0) :=
    posInv_init d idxs outs m.1
  obtain ⟨hl, hsl, -, hpos⟩ :=
    genLoop_posInv d idxs outs (seedLen d idxs) (d.seq_length + 1) seq0 ann0 (fun _ => 0)
      m.2 hinit
  have hslen : seq0.length = seedLen d idxs + 1 := by
    rw [hseq0]
    simp only [List.length_append, List.length_singleton, seed_length]
  have hGlen : (genLoop d idxs outs (d.seq_length + 1) seq0 ann0 (fun _ => 0) m.2).1.length =
      max (d.seq_length + 1) (seedLen d idxs + 1) := by
    rw [genLoop_seq_length d idxs outs (d.seq_length + 1) seq0 ann0 (fun _ => 0) m.2, hslen]
    split <;> omega
  refine ⟨hGlen, by simpa using hl, ?_, ?_⟩
  · intro j hj hj2
    exact posFact_ann_append d idxs outs _ _ _ 0 j (by omega) (hpos j hj hj2)
  · have hlast : (genLoop d idxs outs (d.seq_length + 1) seq0 ann0 (fun _ => 0) m.2).1.length - 1 =
        (genLoop d idxs outs (d.seq_length + 1) seq0 ann0 (fun _ => 0) m.2).2.1.length := by
      omega
    rw [hlast, getD_append_len]
    simp only [List.getD_cons_zero]

theorem getD_len_le {α : Type} (l : List α) (i : Nat) (h : l.length ≤ i) (d : α) :
    l.getD i d = d := by
  simp [List.getD_eq_getElem?_getD, List.getElem?_eq_none h]

theorem choiceUniform_nil (r : RNG) : (choiceUniform r []).1 = 0 := rfl

theorem choiceWeighted_nil (r : RNG) (wt : Nat → Nat) : (choiceWeighted r [] wt).1 = 0 := rfl

theorem seqPools_length (d : Dataset) (idxs : List Nat) :
    (seqPools d idxs).length = idxs.length := by
  unfold seqPools
  split <;> simp

theorem seqPools_subset (d : Dataset) (idxs : List Nat) :
    ∀ p ∈ seqPools d idxs, p ⊆ tokRange d := by
  intro p hp
  unfold seqPools at hp
  split at hp
  · obtain ⟨i, -, rfl⟩ := List.mem_map.mp hp
    exact List.erase_subset _ _
  · obtain ⟨i, -, rfl⟩ := List.mem_map.mp hp
    exact fun x hx => hx

theorem tokRange_ne_nil (d : Dataset) (hV : 0 < d.meta.vocab_size) : tokRange d ≠ [] := by
  unfold tokRange
  intro he
  rw [List.range_eq_nil] at he
  omega

theorem seqOuts_length (d : Dataset) (idxs : List Nat) (r : RNG) :
    (seqOuts d idxs (seqPools d idxs) r).1.length = idxs.length := by
  unfold seqOuts
  split
  · split
    · simp [mapRng_length, List.length_zip, seqPools_length]
    · simp [mapRng_length, seqPools_length]
  · simp [mapRng_length, seqPools_length]
  · simp [mapRng_length, seqPools_length]

theorem choiceUniform_slice_lt (d : Dataset) (idxs : List Nat) (hV : 0 < d.meta.vocab_size)
    (r' : RNG) (pool sl : List Nat) (hpool : pool ∈ seqPools d idxs) (hsub : sl ⊆ pool) :
    (choiceUniform r' sl).1 < d.meta.vocab_size := by
  rcases eq_or_ne sl [] with he | hne
  · rw [he, choiceUniform_nil]
    exact hV
  · exact List.mem_range.mp
      (seqPools_subset d idxs pool hpool (hsub (choiceUniform_mem r' sl hne)))

theorem seqOuts_getD_lt (d : Dataset) (idxs : List Nat) (r : RNG)
    (hV : 0 < d.meta.vocab_size) (i : Nat) :
    (seqOuts d idxs (seqPools d idxs) r).1.getD i 0 < d.meta.vocab_size := by
  rcases Nat.lt_or_ge i (seqOuts d idxs (seqPools d idxs) r).1.length with hi | hi
  · rw [seqOuts_length] at hi
    unfold seqOuts
    split
    · split
      · refine mapRng_spec _ (fun _ y => y < d.meta.vocab_size) _ r ?_ i ?_ ([], 0)
        · intro r' x hx
          rcases eq_or_ne x.1 [] with he | hne
          · rw [he, choiceWeighted_nil]
            exact hV
          · have hm := choiceWeighted_mem r' x.1 (d.meta.bigrams x.2) hne
            exact List.mem_range.mp (seqPools_subset d idxs x.1 (List.of_mem_zip hx).1 hm)
        · simp only [List.length_zip, seqPools_length]
          omega
      · refine mapRng_spec _ (fun _ y => y < d.meta.vocab_size) _ r ?_ i ?_ []
        · intro r' pool hpool
          exact choiceUniform_slice_lt d idxs hV r' pool pool hpool (fun a ha => ha)
        · rw [seqPools_length]
          exact hi
    · refine mapRng_spec _ (fun _ y => y < d.meta.vocab_size) _ r ?_ i ?_ []
      · intro r' pool hpool
        exact choiceUniform_slice_lt d idxs hV r' pool _ hpool (List.take_subset _ _)
      · rw [seqPools_length]
        exact hi
    · refine mapRng_spec _ (fun _ y => y < d.meta.vocab_size) _ r ?_ i ?_ []
      · intro r' pool hpool
        exact choiceUniform_slice_lt d idxs hV r' pool _ hpool (List.drop_subset _ _)
      · rw [seqPools_length]
        exact hi
  · rw [getD_len_le _ _ hi]
    exact hV

theorem genLoop_lt (d : Dataset) (idxs outs : List Nat) (hV : 0 < d.meta.vocab_size)
    (houts : ∀ i, outs.getD i 0 < d.meta.vocab_size)
    (fuel : Nat) (seq : List Nat) (ann : List Int) (cnts : Nat → Nat) (r : RNG)
    (hseq : ∀ x ∈ seq, x < d.meta.vocab_size) :
    ∀ x ∈ (genLoop d idxs outs fuel seq ann cnts r).1, x < d.meta.vocab_size := by
  refine genLoop_preserve d idxs outs
    (fun seq _ _ => ∀ x ∈ seq, x < d.meta.vocab_size) ?_ ?_ ?_ fuel seq ann cnts r hseq
  · intro seq ann cnts h _ _ _ x hx
    rcases List.mem_append.mp hx with hx | hx
    · exact h x hx
    · rw [List.mem_singleton.mp hx]
      exact houts _
  · intro seq ann cnts h _ _ _ x hx
    rcases List.mem_append.mp hx with hx | hx
    · exact h x hx
    · rw [List.mem_singleton.mp hx]
      exact houts _
  · intro seq ann cnts r h _ _ x hx
    rcases List.mem_append.mp hx with hx | hx
    · exact h x hx
    · rw [List.mem_singleton.mp hx]
      exact List.mem_range.mp
        (choiceWeighted_mem r _ _ (tokRange_ne_nil d hV))

theorem gen_seq_lt (d : Dataset) (r : RNG) (hV : 0 < d.meta.vocab_size)
    (hidxs : ∀ x ∈ (seqTriggers d r).1, x < d.meta.vocab_size) :
    ∀ x ∈ (gen_seq d r).1.1, x < d.meta.vocab_size := by
  simp only [gen_seq]
  refine genLoop_lt d _ _ hV (fun i => seqOuts_getD_lt d _ _ hV i) _ _ _ _ _ ?_
  intro x hx
  rcases List.mem_append.mp hx with hx | hx
  · by_cases hb : d.show_latents = true
    · rw [if_pos hb] at hx
      exact hidxs x hx
    · rw [if_neg hb] at hx
      exact absurd hx (List.not_mem_nil x)
  · rw [List.mem_singleton.mp hx]
    exact List.mem_range.mp (choiceWeighted_mem _ _ _ (tokRange_ne_nil d hV))

theorem getD_zip {α β : Type} (l₁ : List α) (l₂ : List β) (i : Nat)
    (h₁ : i < l₁.length) (h₂ : i < l₂.length) (d₁ : α) (d₂ : β) :
    (l₁.zip l₂).getD i (d₁, d₂) = (l₁.getD i d₁, l₂.getD i d₂) := by
  rw [List.getD_eq_getElem _ _ (by simp [List.length_zip]; omega),
    List.getD_eq_getElem _ _ h₁, List.getD_eq_getElem _ _ h₂]
  simp

theorem seqPools_getD (d : Dataset) (idxs : List Nat) (i : Nat) (hi : i < idxs.length) :
    (seqPools d idxs).getD i [] =
      if d.no_repeat then (tokRange d).erase (idxs.getD i 0) else tokRange d := by
  unfold seqPools
  split
  · rw [List.getD_eq_getElem _ _ (by simpa using hi), List.getElem_map,
      List.getD_eq_getElem _ _ hi]
  · rw [List.getD_eq_getElem _ _ (by simpa using hi), List.getElem_map]

theorem seqPools_getD_length (d : Dataset) (idxs : List Nat) (i : Nat) (hi : i < idxs.length) :
    d.meta.vocab_size - 1 ≤ ((seqPools d idxs).getD i []).length := by
  rw [seqPools_getD d idxs i hi]
  split
  · rw [List.length_erase]
    split <;> simp [tokRange]
  · simp [tokRange]

theorem seqPools_getD_nodup (d : Dataset) (idxs : List Nat) (i : Nat) (hi : i < idxs.length) :
    ((seqPools d idxs).getD i []).Nodup := by
  rw [seqPools_getD d idxs i hi]
  split
  · exact (List.nodup_range _).erase _
  · exact List.nodup_range _

theorem seqOuts_getD_mem (d : Dataset) (idxs : List Nat) (r : RNG) (i : Nat)
    (hi : i < idxs.length)
    (hne : drawnSlice d ((seqPools d idxs).getD i []) ≠ []) :
    (seqOuts d idxs (seqPools d idxs) r).1.getD i 0 ∈
      drawnSlice d ((seqPools d idxs).getD i []) := by
  rcases htt : d.train_test with - | tt
  · unfold drawnSlice at hne ⊢
    unfold seqOuts
    simp only [htt] at hne ⊢
    split
    · have := mapRng_spec (fun r pi => choiceWeighted r pi.1 (d.meta.bigrams pi.2))
        (fun x y => x.1 ≠ [] → y ∈ x.1)
        ((seqPools d idxs).zip idxs) r
        (fun r' x _ hx => choiceWeighted_mem r' x.1 (d.meta.bigrams x.2) hx)
        i (by simp only [List.length_zip, seqPools_length]; omega) ([], 0)
      rw [getD_zip _ _ i (by rw [seqPools_length]; exact hi) hi] at this
      exact this hne
    · exact mapRng_spec (fun r pool => choiceUniform r pool)
        (fun pool y => pool ≠ [] → y ∈ pool) (seqPools d idxs) r
        (fun r' pool _ hx => choiceUniform_mem r' pool hx)
        i (by rw [seqPools_length]; exact hi) [] hne
  · cases tt
    · unfold drawnSlice at hne ⊢
      unfold seqOuts
      simp only [htt] at hne ⊢
      exact mapRng_spec (fun r pool => choiceUniform r (pool.take d.n_train_toks))
        (fun pool y => pool.take d.n_train_toks ≠ [] → y ∈ pool.take d.n_train_toks)
        (seqPools d idxs) r
        (fun r' pool _ hx => choiceUniform_mem r' _ hx)
        i (by rw [seqPools_length]; exact hi) [] hne
    · unfold drawnSlice at hne ⊢
      unfold seqOuts
      simp only [htt] at hne ⊢
      exact mapRng_spec (fun r pool => choiceUniform r (pool.drop d.n_train_toks))
        (fun pool y => pool.drop d.n_train_toks ≠ [] → y ∈ pool.drop d.n_train_toks)
        (seqPools d idxs) r
        (fun r' pool _ hx => choiceUniform_mem r' _ hx)
        i (by rw [seqPools_length]; exact hi) [] hne

theorem buildDataset_n_train (args : DataArgs) (tt : Option TrainTest) (bo : Bool)
    (meta : CorpusMeta) (ht : tt.isSome = true) :
    (buildDataset args tt bo meta).n_train_toks = 3 * meta.vocab_size / 4 := by
  unfold buildDataset
  simp [ht]

theorem drawnSlice_ne_nil (args : DataArgs) (tt : Option TrainTest) (bo : Bool)
    (meta : CorpusMeta) (d : Dataset) (h : mkDataset args tt bo meta = some d)
    (hV : 5 ≤ meta.vocab_size) (pool : List Nat)
    (hlen : meta.vocab_size - 1 ≤ pool.length) :
    drawnSlice d pool ≠ [] := by
  obtain ⟨hd, -⟩ := mkDataset_some args tt bo meta d h
  have hpool : pool ≠ [] := by
    intro he
    rw [he] at hlen
    simp at hlen
    omega
  unfold drawnSlice
  rcases htt : d.train_test with - | t
  · exact hpool
  · have hn : d.n_train_toks = 3 * meta.vocab_size / 4 := by
      rw [hd]
      rw [hd] at htt
      exact buildDataset_n_train args tt bo meta (by
        have : tt = some t := htt
        rw [this]
        rfl)
    cases t
    · intro he
      rw [List.take_eq_nil_iff] at he
      rcases he with he | he
      · rw [hn] at he
        omega
      · exact hpool he
    · intro he
      rw [List.drop_eq_nil_iff] at he
      rw [hn] at he
      omega

theorem argRel_lt (w : Nat → Nat) (u v : Nat) (h : argRel w u v) (hne : w u ≠ w v) :
    w u < w v := by
  rcases h with h | ⟨h, -⟩
  · exact h
  · exact absurd h hne

theorem rankTop_getElem (m : CorpusMeta)
    (hdist : ∀ i j, i < m.vocab_size → j < m.vocab_size → i ≠ j →
      m.unigrams i ≠ m.unigrams j)
    (p : Nat) (hp : p < m.vocab_size) :
    rankTop m ((argsortM m).getD p 0) = m.vocab_size - 1 - p := by
  have hAlen : (argsortM m).length = m.vocab_size := argsortM_length m
  have hnd : (argsortM m).Nodup := argsortM_nodup m
  have hsort := argsortM_sorted m
  have hpA : p < (argsortM m).length := by omega
  rw [List.getD_eq_getElem _ 0 hpA]
  obtain ⟨x, hxv⟩ : ∃ x, (argsortM m)[p] = x := ⟨_, rfl⟩
  rw [hxv]
  have hxV : x < m.vocab_size := (argsortM_mem m).mp (hxv ▸ List.getElem_mem hpA)
  unfold rankTop
  have hperm := ((argsortM_perm m).symm.filter
    (fun u => decide (m.unigrams x < m.unigrams u)))
  rw [hperm.length_eq]
  have hdecomp : argsortM m =
      (argsortM m).take p ++ x :: (argsortM m).drop (p + 1) := by
    conv_lhs => rw [← List.take_append_drop p (argsortM m)]
    rw [List.drop_eq_getElem_cons hpA, hxv]
  have htake : ((argsortM m).take p).filter
      (fun u => decide (m.unigrams x < m.unigrams u)) = [] := by
    rw [List.filter_eq_nil_iff]
    intro u hu
    obtain ⟨i, hi, hui⟩ := List.getElem_of_mem hu
    have hip : i < p := by
      have := hi
      simp [List.length_take] at this
      omega
    have hiA : i < (argsortM m).length := by omega
    have hval : ((argsortM m).take p)[i] = (argsortM m)[i] := by
      simp [List.getElem_take]
    have huA : u = (argsortM m)[i] := by rw [← hui, hval]
    have hrel : argRel m.unigrams u x := by
      rw [huA, ← hxv]
      exact hsort.rel_get_of_lt (by simpa using hip)
    have hne : u ≠ x := by
      rw [huA, ← hxv]
      intro he
      exact absurd (hnd.getElem_inj_iff.mp he) (by omega)
    have huV : u < m.vocab_size := (argsortM_mem m).mp (huA ▸ List.getElem_mem hiA)
    have : m.unigrams u < m.unigrams x :=
      argRel_lt _ _ _ hrel (hdist u x huV hxV hne)
    simp
    omega
  have hdrop : ((argsortM m).drop (p + 1)).filter
      (fun u => decide (m.unigrams x < m.unigrams u)) = (argsortM m).drop (p + 1) := by
    rw [List.filter_eq_self]
    intro u hu
    obtain ⟨i, hi, hui⟩ := List.getElem_of_mem hu
    have hiA : p + 1 + i < (argsortM m).length := by
      simp [List.length_drop] at hi
      omega
    have hval : ((argsortM m).drop (p + 1))[i] = (argsortM m)[p + 1 + i] := by
      simp [List.getElem_drop]
    have huA : u = (argsortM m)[p + 1 + i] := by rw [← hui, hval]
    have hrel : argRel m.unigrams x u := by
      rw [huA, ← hxv]
      exact hsort.rel_get_of_lt (by simp; omega)
    have hne : x ≠ u := by
      rw [huA, ← hxv]
      intro he
      exact absurd (hnd.getElem_inj_iff.mp he) (by omega)
    have huV : u < m.vocab_size := (argsortM_mem m).mp (huA ▸ List.getElem_mem hiA)
    have : m.unigrams x < m.unigrams u :=
      argRel_lt _ _ _ hrel (hdist x u hxV huV hne)
    simpa
  conv_lhs => rw [hdecomp]
  rw [List.filter_append, List.length_append, htake, List.filter_cons]
  have hqx : (decide (m.unigrams x < m.unigrams x)) = false := by simp
  rw [hqx]
  simp only [Bool.false_eq_true, if_false, List.length_nil, Nat.zero_add]
  rw [hdrop, List.length_drop, hAlen]
  omega

theorem mem_argsort_slice_iff (m : CorpusMeta)
    (hdist : ∀ i j, i < m.vocab_size → j < m.vocab_size → i ≠ j →
      m.unigrams i ≠ m.unigrams j)
    (off k : Nat) (hwin : off + k ≤ m.vocab_size) (t : Nat) (ht : t < m.vocab_size) :
    t ∈ ((argsortM m).drop (m.vocab_size - off - k)).take k ↔
      (off ≤ rankTop m t ∧ rankTop m t < off + k) := by
  have hAlen : (argsortM m).length = m.vocab_size := argsortM_length m
  constructor
  · intro hmem
    obtain ⟨i, hi, hval⟩ := List.getElem_of_mem hmem
    have hik : i < k := by
      simp [List.length_take, List.length_drop] at hi
      omega
    have hsi : m.vocab_size - off - k + i < (argsortM m).length := by omega
    have hval2 : (argsortM m)[m.vocab_size - off - k + i] = t := by
      rw [← hval]
      simp [List.getElem_take, List.getElem_drop]
    have hr := rankTop_getElem m hdist (m.vocab_size - off - k + i) (by omega)
    rw [List.getD_eq_getElem _ 0 hsi, hval2] at hr
    omega
  · intro ⟨h1, h2⟩
    have htA : t ∈ argsortM m := (argsortM_mem m).mpr ht
    obtain ⟨p, hpl, hpv⟩ := List.getElem_of_mem htA
    have hr := rankTop_getElem m hdist p (by omega)
    rw [List.getD_eq_getElem _ 0 hpl, hpv] at hr
    have hp1 : m.vocab_size - off - k ≤ p := by omega
    have hp2 : p < m.vocab_size - off := by omega
    have hb : p - (m.vocab_size - off - k) <
        (((argsortM m).drop (m.vocab_size - off - k)).take k).length := by
      simp [List.length_take, List.length_drop]
      omega
    have hval : (((argsortM m).drop (m.vocab_size - off - k)).take k).getD
        (p - (m.vocab_size - off - k)) 0 = t := by
      rw [List.getD_eq_getElem _ 0 hb, ← hpv]
      simp only [List.getElem_take, List.getElem_drop]
      congr 1
      omega
    exact hval ▸ getD_mem hb 0

theorem pySlice_window (a : List Nat) (V off k : Nat) (hlen : a.length = V)
    (hwin : off + k ≤ V) :
    pySlice a ((V : Int) - (off : Int) - (k : Int)) ((V : Int) - (off : Int)) =
      (a.drop (V - off - k)).take k := by
  unfold pySlice pyIdx
  rw [hlen]
  rw [if_neg (by omega), if_neg (by omega)]
  rw [show ((V : Int) - (off : Int) - (k : Int)).toNat = V - off - k by omega,
    show ((V : Int) - (off : Int)).toNat = V - off by omega,
    show min (V - off - k) V = V - off - k by omega,
    show min (V - off) V = V - off by omega]
  dsimp only
  rw [show V - off - (V - off - k) = k by omega]

/-! ### Batch lemmas -/

theorem getD_map {α β : Type} (l : List α) (f : α → β) (i : Nat) (hi : i < l.length)
    (da : α) (db : β) : (l.map f).getD i db = f (l.getD i da) := by
  rw [List.getD_eq_getElem _ _ (by simpa using hi), List.getElem_map,
    List.getD_eq_getElem _ _ hi]

theorem seedLen_zero (d : Dataset) (idxs : List Nat) (hsl : d.show_latents = false) :
    seedLen d idxs = 0 := by
  unfold seedLen
  rw [hsl]
  rfl

theorem gen_seq_length_noshow (d : Dataset) (r : RNG) (hsl : d.show_latents = false) :
    (gen_seq d r).1.1.length = d.seq_length + 1 ∧
      (gen_seq d r).1.2.length = d.seq_length + 1 := by
  obtain ⟨h1, h2, -, -⟩ := gen_seq_spec d r
  rw [seedLen_zero d _ hsl] at h1
  constructor
  · omega
  · rw [h2]
    omega

theorem gen_seqs_flat_length (d : Dataset) (hsl : d.show_latents = false) :
    ∀ (B : Nat) (r : RNG),
      (gen_seqs_flat d r B).1.1.length = B * (d.seq_length + 1) ∧
      (gen_seqs_flat d r B).1.2.length = B * (d.seq_length + 1) := by
  intro B
  induction B with
  | zero => intro r; simp [gen_seqs_flat]
  | succ B ih =>
    intro r
    obtain ⟨h1, h2⟩ := gen_seq_length_noshow d r hsl
    obtain ⟨ih1, ih2⟩ := ih (gen_seq d r).2
    simp only [gen_seqs_flat, List.length_append]
    constructor
    · rw [h1, ih1]; ring
    · rw [h2, ih2]; ring

theorem reshape_length {α : Type} (rows cols : Nat) (l : List α) :
    (reshape rows cols l).length = rows := by
  simp [reshape]

theorem reshape_getD {α : Type} (rows cols : Nat) (l : List α) (i : Nat) (hi : i < rows) :
    (reshape rows cols l).getD i [] = (l.drop (i * cols)).take cols := by
  unfold reshape
  rw [List.getD_eq_getElem _ _ (by simpa using hi), List.getElem_map]
  congr 1
  simp

theorem reshape_row_length {α : Type} (rows cols : Nat) (l : List α) (i : Nat)
    (hi : i < rows) (hlen : l.length = rows * cols) :
    ((reshape rows cols l).getD i []).length = cols := by
  rw [reshape_getD _ _ _ _ hi]
  simp only [List.length_take, List.length_drop]
  have hmul : i * cols + cols ≤ rows * cols := by
    calc i * cols + cols = (i + 1) * cols := by ring
    _ ≤ rows * cols := Nat.mul_le_mul_right _ (by omega)
  omega

theorem seqTriggers_fixed (args : DataArgs) (tt : Option TrainTest) (bo : Bool)
    (meta : CorpusMeta) (d : Dataset) (h : mkDataset args tt bo meta = some d)
    (hf : args.fixed_special_toks = true) (r : RNG) :
    seqTriggers d r = (pySlice (argsortM meta)
      ((meta.vocab_size : Int) - args.special_toks_offset - (args.k : Int))
      ((meta.vocab_size : Int) - args.special_toks_offset), r) := by
  obtain ⟨hd, -⟩ := mkDataset_some args tt bo meta d h
  unfold seqTriggers
  rw [hd]
  unfold buildDataset
  simp [hf]

theorem seqTriggers_random (args : DataArgs) (tt : Option TrainTest) (bo : Bool)
    (meta : CorpusMeta) (d : Dataset) (h : mkDataset args tt bo meta = some d)
    (hf : args.fixed_special_toks = false) (r : RNG) :
    seqTriggers d r = sampleWoR r (tokRange d) d.meta.unigrams d.k := by
  obtain ⟨hd, -⟩ := mkDataset_some args tt bo meta d h
  unfold seqTriggers
  rw [hd]
  unfold buildDataset
  simp [hf]

theorem gen_batch_rows (d : Dataset) (hds : d.show_latents = false) (r : RNG) (B : Nat) :
    (gen_batch d r B).1.1.length = B ∧ (gen_batch d r B).1.2.length = B ∧
    ∀ i, i < B → ((gen_batch d r B).1.1.getD i []).length = d.seq_length + 1 ∧
      ((gen_batch d r B).1.2.getD i []).length = d.seq_length + 1 := by
  obtain ⟨hf1, hf2⟩ := gen_seqs_flat_length d hds B r
  simp only [gen_batch]
  refine ⟨reshape_length _ _ _, reshape_length _ _ _, ?_⟩
  intro i hi
  exact ⟨reshape_row_length B (d.seq_length + 1) _ i hi hf1,
    reshape_row_length B (d.seq_length + 1) _ i hi hf2⟩

/-! ### Claim theorems -/

/-- C9: constructing a `Dataset` with an out-of-distribution split active
together with bigram-weighted response sampling fails at construction time;
with the split inactive or bigram weighting disabled, construction does not
fail on this condition. -/
theorem c9_construction_guard (args : DataArgs) (tt : Option TrainTest) (bo : Bool)
    (meta : CorpusMeta) :
    (mkDataset args tt bo meta).isSome = true ↔ ¬(tt.isSome = true ∧ bo = true) := by
  unfold mkDataset
  split <;> simp_all

/-- C2: the batch stream is a pure function of the dataset configuration, the
batch size, the seed and the stream position: two independent runs built from
equal parameters yield identical triples at every position. -/
theorem c2_stream_deterministic (d₁ d₂ : Dataset) (b₁ b₂ s₁ s₂ n₁ n₂ : Nat)
    (hd : d₁ = d₂) (hb : b₁ = b₂) (hs : s₁ = s₂) (hn : n₁ = n₂) :
    iterate_batches d₁ b₁ s₁ n₁ = iterate_batches d₂ b₂ s₂ n₂ := by
  subst hd
  subst hb
  subst hs
  subst hn
  rfl

/-- C2 witness at a concrete dataset, batch size, seed and position. -/
theorem c2_stream_deterministic_witness :
    iterate_batches dsW0 1 42 0 = iterate_batches dsW0 1 42 0 :=
  c2_stream_deterministic dsW0 dsW0 1 1 42 42 0 0 rfl rfl rfl rfl

/-- C1 counterexample: with `show_latents` enabled and `k = 2` latent seeds
but `seq_length = 1`, `gen_seq` returns lists of length 3, not
`seq_length + 1 = 2`. -/
theorem c1_counterexample :
    mkDataset argsC1 none false metaW3 = some dsC1 ∧
    dsC1.seq_length + 1 = 2 ∧
    (gen_seq dsC1 (mkRng 0)).1.1.length = 3 := by
  refine ⟨rfl, rfl, ?_⟩
  decide

/-- C1 (amended): the sequence and the annotation returned by `gen_seq`
always have equal length, namely `max (seq_length + 1) (s + 1)` where `s` is
the number of latent seed tokens (0 unless `show_latents`); in particular both
have length exactly `seq_length + 1` whenever the number of latent seed tokens
is at most `seq_length` (always the case when `show_latents` is disabled). -/
theorem c1_lengths (args : DataArgs) (tt : Option TrainTest) (bo : Bool)
    (meta : CorpusMeta) (d : Dataset) (h : mkDataset args tt bo meta = some d) (r : RNG) :
    (gen_seq d r).1.1.length = (gen_seq d r).1.2.length ∧
    (gen_seq d r).1.1.length =
      max (d.seq_length + 1) (seedLen d (seqTriggers d r).1 + 1) ∧
    (seedLen d (seqTriggers d r).1 ≤ d.seq_length →
      (gen_seq d r).1.1.length = d.seq_length + 1) := by
  obtain ⟨h1, h2, -, -⟩ := gen_seq_spec d r
  refine ⟨h2.symm, h1, fun hle => ?_⟩
  rw [h1]
  omega

/-- C1 witness at a concrete configuration. -/
theorem c1_lengths_witness :
    (gen_seq dsW0 (mkRng 0)).1.1.length = (gen_seq dsW0 (mkRng 0)).1.2.length :=
  (c1_lengths argsW0 none false metaW1 dsW0 rfl (mkRng 0)).1

/-- C7: every token of a generated sequence lies in `[0, V)`: the latent
trigger seeds, the initial marginal draw, the background conditional draws
and the trigger responses alike. -/
theorem c7_tokens_in_range (args : DataArgs) (tt : Option TrainTest) (bo : Bool)
    (meta : CorpusMeta) (d : Dataset) (h : mkDataset args tt bo meta = some d)
    (hV : 1 ≤ meta.vocab_size) (hk : d.k ≤ meta.vocab_size) (r : RNG) :
    ∀ x ∈ (gen_seq d r).1.1, x < meta.vocab_size := by
  obtain ⟨hd, -⟩ := mkDataset_some args tt bo meta d h
  have hmeta : d.meta = meta := by rw [hd]; rfl
  intro x hx
  have h1 : ∀ y ∈ (seqTriggers d r).1, y < d.meta.vocab_size := by
    rw [hmeta]
    exact seqTriggers_lt args tt bo meta d h hk r
  have h2 := gen_seq_lt d r (by rw [hmeta]; omega) h1 x hx
  rw [hmeta] at h2
  exact h2

/-- C7 witness at a concrete configuration and position. -/
theorem c7_tokens_in_range_witness :
    (gen_seq dsW0 (mkRng 0)).1.1.getD 0 0 < metaW1.vocab_size :=
  c7_tokens_in_range argsW0 none false metaW1 dsW0 rfl (by decide) (by decide) (mkRng 0)
    ((gen_seq dsW0 (mkRng 0)).1.1.getD 0 0) (by decide)

/-- C5: at every triggered step the annotation value is the 1-based running
count of that trigger's firings so far in this sequence when repeat-counting
is enabled (the count of occurrences of the trigger among the processed
positions up to and including the current one), and the constant 1 when
repeat-counting is disabled. -/
theorem c5_counter_values (args : DataArgs) (tt : Option TrainTest) (bo : Bool)
    (meta : CorpusMeta) (d : Dataset) (h : mkDataset args tt bo meta = some d) (r : RNG)
    (j : Nat) (hj : seedLen d (seqTriggers d r).1 ≤ j)
    (hj2 : j + 1 < (gen_seq d r).1.1.length)
    (ht : (gen_seq d r).1.1.getD j 0 ∈ (seqTriggers d r).1) :
    (gen_seq d r).1.2.getD j 0 =
      (if d.output_counter = true then
        ((((gen_seq d r).1.1.drop (seedLen d (seqTriggers d r).1)).take
            (j + 1 - seedLen d (seqTriggers d r).1)).count
          ((gen_seq d r).1.1.getD j 0) : Int)
      else 1) := by
  obtain ⟨-, -, hpos, -⟩ := gen_seq_spec d r
  have hf := hpos j hj hj2
  unfold posFact at hf
  rw [if_pos ht] at hf
  exact hf.2

/-- C5 witness at a concrete configuration and triggered position. -/
theorem c5_counter_values_witness :
    (gen_seq dsW5 (mkRng 0)).1.2.getD 0 0 =
      (if dsW5.output_counter = true then
        ((((gen_seq dsW5 (mkRng 0)).1.1.drop (seedLen dsW5 (seqTriggers dsW5 (mkRng 0)).1)).take
            (0 + 1 - seedLen dsW5 (seqTriggers dsW5 (mkRng 0)).1)).count
          ((gen_seq dsW5 (mkRng 0)).1.1.getD 0 0) : Int)
      else 1) :=
  c5_counter_values argsW5 none false metaW1 dsW5 rfl (mkRng 0) 0 (by decide) (by decide)
    (by decide)

/-- C10: with `show_latents` disabled, the annotation value at a position
`j < seq_length` is nonzero exactly when the token at position `j` is in the
run's trigger set, and the annotation value at position `seq_length` is 0. -/
theorem c10_flag_iff_trigger (args : DataArgs) (tt : Option TrainTest) (bo : Bool)
    (meta : CorpusMeta) (d : Dataset) (h : mkDataset args tt bo meta = some d)
    (hsl : args.show_latents = false) (r : RNG) :
    (∀ j, j < d.seq_length →
      ((gen_seq d r).1.2.getD j 0 ≠ 0 ↔
        (gen_seq d r).1.1.getD j 0 ∈ (seqTriggers d r).1)) ∧
    (gen_seq d r).1.2.getD d.seq_length 0 = 0 := by
  obtain ⟨hd, -⟩ := mkDataset_some args tt bo meta d h
  have hds : d.show_latents = false := by rw [hd]; exact hsl
  have hsl0 : seedLen d (seqTriggers d r).1 = 0 := seedLen_zero d _ hds
  obtain ⟨h1, h2, hpos, hlast⟩ := gen_seq_spec d r
  have hlen : (gen_seq d r).1.1.length = d.seq_length + 1 :=
    (gen_seq_length_noshow d r hds).1
  constructor
  · intro j hj
    have hf := hpos j (by omega) (by omega)
    unfold posFact at hf
    rw [hsl0] at hf
    by_cases htj : (gen_seq d r).1.1.getD j 0 ∈ (seqTriggers d r).1
    · rw [if_pos htj] at hf
      constructor
      · intro _
        exact htj
      · intro _
        rw [hf.2]
        split
        · have hjw : (gen_seq d r).1.1.getD j 0 ∈
              (((gen_seq d r).1.1.drop 0).take (j + 1 - 0)) := by
            rw [List.drop_zero]
            have hq : ((gen_seq d r).1.1.take (j + 1 - 0)).getD j 0 =
                (gen_seq d r).1.1.getD j 0 := getD_take _ _ _ (by omega) 0
            rw [← hq]
            exact getD_mem (by simp [List.length_take]; omega) 0
          have hc := List.count_pos_iff.mpr hjw
          exact Int.natCast_ne_zero.mpr (by omega)
        · norm_num
    · rw [if_neg htj] at hf
      constructor
      · intro hne
        exact absurd hf hne
      · intro hmem
        exact absurd hmem htj
  · rw [hlen] at hlast
    simpa using hlast

/-- C10 witness at a concrete configuration: the final annotation value. -/
theorem c10_flag_iff_trigger_witness :
    (gen_seq dsW5 (mkRng 0)).1.2.getD dsW5.seq_length 0 = 0 :=
  (c10_flag_iff_trigger argsW5 none false metaW1 dsW5 rfl rfl (mkRng 0)).2

/-- C6: when self-repetition is disallowed, each trigger's precomputed
response token differs from that trigger's own id under every sampling mode,
and consequently no trigger occurrence in the generated sequence is followed
by that same trigger id via its response. -/
theorem c6_no_repeat (args : DataArgs) (tt : Option TrainTest) (bo : Bool)
    (meta : CorpusMeta) (d : Dataset) (h : mkDataset args tt bo meta = some d)
    (hnr : args.no_repeat = true) (hV : 5 ≤ meta.vocab_size) (r : RNG) :
    (∀ i, i < (seqTriggers d r).1.length →
      (seqOuts d (seqTriggers d r).1 (seqPools d (seqTriggers d r).1)
          (seqTriggers d r).2).1.getD i 0 ≠ (seqTriggers d r).1.getD i 0) ∧
    (∀ j, seedLen d (seqTriggers d r).1 ≤ j → j + 1 < (gen_seq d r).1.1.length →
      (gen_seq d r).1.1.getD j 0 ∈ (seqTriggers d r).1 →
      (gen_seq d r).1.1.getD (j + 1) 0 ≠ (gen_seq d r).1.1.getD j 0) := by
  obtain ⟨hd, -⟩ := mkDataset_some args tt bo meta d h
  have hdnr : d.no_repeat = true := by rw [hd]; exact hnr
  have hmeta : d.meta = meta := by rw [hd]; rfl
  have hpart1 : ∀ i, i < (seqTriggers d r).1.length →
      (seqOuts d (seqTriggers d r).1 (seqPools d (seqTriggers d r).1)
          (seqTriggers d r).2).1.getD i 0 ≠ (seqTriggers d r).1.getD i 0 := by
    intro i hi
    have hplen : meta.vocab_size - 1 ≤
        ((seqPools d (seqTriggers d r).1).getD i []).length := by
      have hq := seqPools_getD_length d (seqTriggers d r).1 i hi
      rw [hmeta] at hq
      exact hq
    have hne := drawnSlice_ne_nil args tt bo meta d h hV _ hplen
    have hmem := seqOuts_getD_mem d (seqTriggers d r).1 (seqTriggers d r).2 i hi hne
    have hsub : drawnSlice d ((seqPools d (seqTriggers d r).1).getD i []) ⊆
        (seqPools d (seqTriggers d r).1).getD i [] := by
      unfold drawnSlice
      split
      · exact fun a ha => ha
      · exact List.take_subset _ _
      · exact List.drop_subset _ _
    have hmem2 := hsub hmem
    rw [seqPools_getD d (seqTriggers d r).1 i hi, if_pos hdnr] at hmem2
    have hndr : (tokRange d).Nodup := List.nodup_range _
    exact fun he => ((hndr.mem_erase_iff).mp hmem2).1 he
  refine ⟨hpart1, ?_⟩
  intro j hj hj2 htj
  obtain ⟨-, -, hpos, -⟩ := gen_seq_spec d r
  have hf := hpos j hj hj2
  unfold posFact at hf
  rw [if_pos htj] at hf
  rw [hf.1]
  have hidx : (seqTriggers d r).1.indexOf ((gen_seq d r).1.1.getD j 0) <
      (seqTriggers d r).1.length := List.indexOf_lt_length.mpr htj
  have hval : (seqTriggers d r).1.getD
      ((seqTriggers d r).1.indexOf ((gen_seq d r).1.1.getD j 0)) 0 =
      (gen_seq d r).1.1.getD j 0 := by
    rw [List.getD_eq_getElem _ _ hidx]
    exact List.getElem_indexOf hidx
  intro he
  exact hpart1 _ hidx (by rw [hval]; exact he)

/-- C6 witness at a concrete configuration. -/
theorem c6_no_repeat_witness :
    (seqOuts dsW6 (seqTriggers dsW6 (mkRng 0)).1
        (seqPools dsW6 (seqTriggers dsW6 (mkRng 0)).1)
        (seqTriggers dsW6 (mkRng 0)).2).1.getD 0 0 ≠
      (seqTriggers dsW6 (mkRng 0)).1.getD 0 0 :=
  (c6_no_repeat argsW6 none false metaW5 dsW6 rfl rfl (by decide) (mkRng 0)).1 0 (by decide)

/-- C3: with an out-of-distribution split active, each trigger's response is
drawn from a positional slice of that trigger's (already self-filtered)
candidate pool: the first `int(0.75 * V)` positions in train mode, the
remaining positions in test mode; and for any one trigger's pool these two
portions are disjoint. -/
theorem c3_ood_split (args : DataArgs) (t : TrainTest) (bo : Bool)
    (meta : CorpusMeta) (d : Dataset) (h : mkDataset args (some t) bo meta = some d)
    (hV : 5 ≤ meta.vocab_size) (r : RNG) :
    (∀ i, i < (seqTriggers d r).1.length →
      (seqOuts d (seqTriggers d r).1 (seqPools d (seqTriggers d r).1)
          (seqTriggers d r).2).1.getD i 0 ∈
        (match t with
         | TrainTest.train =>
           ((seqPools d (seqTriggers d r).1).getD i []).take (3 * meta.vocab_size / 4)
         | TrainTest.test =>
           ((seqPools d (seqTriggers d r).1).getD i []).drop (3 * meta.vocab_size / 4))) ∧
    (∀ i, i < (seqTriggers d r).1.length → ∀ x,
      x ∈ ((seqPools d (seqTriggers d r).1).getD i []).take (3 * meta.vocab_size / 4) →
      x ∉ ((seqPools d (seqTriggers d r).1).getD i []).drop (3 * meta.vocab_size / 4)) := by
  obtain ⟨hd, -⟩ := mkDataset_some args (some t) bo meta d h
  have hmeta : d.meta = meta := by rw [hd]; rfl
  have htt : d.train_test = some t := by rw [hd]; rfl
  have hnt : d.n_train_toks = 3 * meta.vocab_size / 4 := by
    rw [hd]
    exact buildDataset_n_train args (some t) bo meta rfl
  constructor
  · intro i hi
    have hplen : meta.vocab_size - 1 ≤
        ((seqPools d (seqTriggers d r).1).getD i []).length := by
      have hq := seqPools_getD_length d (seqTriggers d r).1 i hi
      rw [hmeta] at hq
      exact hq
    have hne := drawnSlice_ne_nil args (some t) bo meta d h hV _ hplen
    have hmem := seqOuts_getD_mem d (seqTriggers d r).1 (seqTriggers d r).2 i hi hne
    unfold drawnSlice at hmem
    rw [htt] at hmem
    cases t
    · rw [hnt] at hmem
      exact hmem
    · rw [hnt] at hmem
      exact hmem
  · intro i hi x hx
    exact List.disjoint_take_drop (seqPools_getD_nodup d (seqTriggers d r).1 i hi)
      (Nat.le_refl _) hx

/-- C3 witness at a concrete train-mode configuration. -/
theorem c3_ood_split_witness :
    (seqOuts dsWtr (seqTriggers dsWtr (mkRng 0)).1
        (seqPools dsWtr (seqTriggers dsWtr (mkRng 0)).1)
        (seqTriggers dsWtr (mkRng 0)).2).1.getD 0 0 ∈
      ((seqPools dsWtr (seqTriggers dsWtr (mkRng 0)).1).getD 0 []).take
        (3 * metaW5.vocab_size / 4) :=
  (c3_ood_split argsW3 TrainTest.train false metaW5 dsWtr rfl (by decide) (mkRng 0)).1 0
    (by decide)

/-- C4 counterexample: with `V = 3`, `k = 3 ≤ V`, fixed mode and offset 1 the
slice `argsort[V-offset-k : V-offset] = argsort[-1:2]` is empty, so the
selection has 0 elements instead of `k = 3` distinct ids. -/
theorem c4_counterexample :
    mkDataset argsC4 none false metaW3 = some dsC4 ∧
    dsC4.k = 3 ∧ dsC4.meta.vocab_size = 3 ∧
    (seqTriggers dsC4 (mkRng 0)).1.length = 0 := by
  refine ⟨rfl, rfl, rfl, ?_⟩
  decide

/-- C4 (amended): for every configuration with `0 ≤ k ≤ V` — provided that,
in fixed mode, the rank window fits the vocabulary
(`0 ≤ special_toks_offset` and `special_toks_offset + k ≤ V`) — the trigger
selection produces an ordered set of exactly `k` distinct token ids; in fixed
mode, when additionally the marginal counts are pairwise distinct so that
ranks are well defined, the selected ids are exactly the tokens whose
marginal-count rank from the most frequent end lies in
`[special_toks_offset, special_toks_offset + k)`. -/
theorem c4_trigger_selection (args : DataArgs) (tt : Option TrainTest) (bo : Bool)
    (meta : CorpusMeta) (d : Dataset) (h : mkDataset args tt bo meta = some d)
    (hk : args.k ≤ meta.vocab_size)
    (hwin : args.fixed_special_toks = true →
      0 ≤ args.special_toks_offset ∧
      args.special_toks_offset.toNat + args.k ≤ meta.vocab_size)
    (r : RNG) :
    (seqTriggers d r).1.length = d.k ∧
    (seqTriggers d r).1.Nodup ∧
    (args.fixed_special_toks = true →
      (∀ i, i < meta.vocab_size → ∀ j, j < meta.vocab_size → i ≠ j →
        meta.unigrams i ≠ meta.unigrams j) →
      ∀ t, t < meta.vocab_size →
        (t ∈ (seqTriggers d r).1 ↔
          args.special_toks_offset.toNat ≤ rankTop meta t ∧
          rankTop meta t < args.special_toks_offset.toNat + args.k)) := by
  obtain ⟨hd, -⟩ := mkDataset_some args tt bo meta d h
  have hdk : d.k = args.k := by rw [hd]; rfl
  have hmeta : d.meta = meta := by rw [hd]; rfl
  by_cases hf : args.fixed_special_toks = true
  · obtain ⟨hoff, hwin'⟩ := hwin hf
    have hslice := seqTriggers_fixed args tt bo meta d h hf r
    have hoffc : args.special_toks_offset = ((args.special_toks_offset.toNat : Nat) : Int) :=
      (Int.toNat_of_nonneg hoff).symm
    have hwindow : (seqTriggers d r).1 =
        ((argsortM meta).drop
          (meta.vocab_size - args.special_toks_offset.toNat - args.k)).take args.k := by
      rw [hslice]
      rw [show (pySlice (argsortM meta)
          ((meta.vocab_size : Int) - args.special_toks_offset - (args.k : Int))
          ((meta.vocab_size : Int) - args.special_toks_offset), r).1 =
        pySlice (argsortM meta)
          ((meta.vocab_size : Int) - args.special_toks_offset - (args.k : Int))
          ((meta.vocab_size : Int) - args.special_toks_offset) from rfl]
      rw [hoffc]
      exact pySlice_window (argsortM meta) meta.vocab_size args.special_toks_offset.toNat
        args.k (argsortM_length meta) hwin'
    refine ⟨?_, ?_, ?_⟩
    · rw [hwindow, hdk]
      simp only [List.length_take, List.length_drop, argsortM_length]
      omega
    · rw [hwindow]
      exact ((List.take_sublist _ _).trans (List.drop_sublist _ _)).nodup
        (argsortM_nodup meta)
    · intro _ hdist t ht
      have hdist2 : ∀ i j, i < meta.vocab_size → j < meta.vocab_size → i ≠ j →
          meta.unigrams i ≠ meta.unigrams j := fun i j hi hj => hdist i hi j hj
      rw [hwindow]
      exact mem_argsort_slice_iff meta hdist2 args.special_toks_offset.toNat args.k hwin' t ht
  · have hrand := seqTriggers_random args tt bo meta d h (by simpa using hf) r
    refine ⟨?_, ?_, ?_⟩
    · rw [hrand]
      exact sampleWoR_length _ _ _ _
    · rw [hrand]
      refine sampleWoR_nodup _ _ _ _ ?_ (List.nodup_range _)
      unfold tokRange
      rw [List.length_range, hmeta, hdk]
      exact hk
    · intro hf' _
      exact absurd hf' hf

/-- C4 witness at a concrete fixed-mode configuration with tied marginal
counts (uniform marginal, k = 1, offset 0). -/
theorem c4_trigger_selection_witness :
    (seqTriggers dsU4 (mkRng 0)).1.length = dsU4.k :=
  (c4_trigger_selection argsU4 none false metaU5 dsU4 rfl (by decide) (by decide)
    (mkRng 0)).1

/-- C8: each triple yielded by the batch stream is the batch with its last
column dropped (input), the same batch with its first column dropped
(target), and the annotation batch with its last column dropped; hence all
three have shape `(batch_size, seq_length)` and the target row equals the
input row shifted by one position. -/
theorem c8_batch_shapes (args : DataArgs) (tt : Option TrainTest) (bo : Bool)
    (meta : CorpusMeta) (d : Dataset) (h : mkDataset args tt bo meta = some d)
    (hsl : args.show_latents = false) (B seed n : Nat) :
    (iterate_batches d B seed n).1.length = B ∧
    (iterate_batches d B seed n).2.1.length = B ∧
    (iterate_batches d B seed n).2.2.length = B ∧
    (∀ i, i < B →
      ((iterate_batches d B seed n).1.getD i []).length = d.seq_length ∧
      ((iterate_batches d B seed n).2.1.getD i []).length = d.seq_length ∧
      ((iterate_batches d B seed n).2.2.getD i []).length = d.seq_length) ∧
    (∀ i, i < B → ∀ j, j + 1 < d.seq_length →
      ((iterate_batches d B seed n).2.1.getD i []).getD j 0 =
        ((iterate_batches d B seed n).1.getD i []).getD (j + 1) 0) := by
  obtain ⟨hd, -⟩ := mkDataset_some args tt bo meta d h
  have hds : d.show_latents = false := by rw [hd]; exact hsl
  obtain ⟨hb1, hb2, hrows⟩ := gen_batch_rows d hds (streamRng d B seed n) B
  simp only [iterate_batches]
  refine ⟨by simp [hb1], by simp [hb1], by simp [hb2], ?_, ?_⟩
  · intro i hi
    obtain ⟨hr1, hr2⟩ := hrows i hi
    rw [getD_map _ _ i (by rw [hb1]; exact hi) [] [],
      getD_map _ _ i (by rw [hb1]; exact hi) [] [],
      getD_map _ _ i (by rw [hb2]; exact hi) [] []]
    refine ⟨?_, ?_, ?_⟩
    · simp only [List.length_take, List.length_drop]
      omega
    · simp only [List.length_drop]
      omega
    · simp only [List.length_take, List.length_drop]
      omega
  · intro i hi j hj
    obtain ⟨hr1, -⟩ := hrows i hi
    rw [getD_map _ _ i (by rw [hb1]; exact hi) [] [],
      getD_map _ _ i (by rw [hb1]; exact hi) [] []]
    rw [getD_drop, getD_take _ _ _ (by omega) 0, Nat.add_comm]

/-- C8 witness at a concrete configuration, row and column. -/
theorem c8_batch_shapes_witness :
    ((iterate_batches dsW5 1 42 0).2.1.getD 0 []).getD 0 0 =
      ((iterate_batches dsW5 1 42 0).1.getD 0 []).getD (0 + 1) 0 :=
  (c8_batch_shapes argsW5 none false metaW1 dsW5 rfl rfl 1 42 0).2.2.2.2 0 (by decide) 0
    (by decide)
